import Mathlib

/-
Verification development for the widgets repository (Rust).

The definitions below are a shallow embedding of the code under src/:
  - geometry value types and the pointer hit test (src/core/src/geometry/point.rs),
  - the draw-command batching queue (src/widgets/src/draw/queue.rs),
  - the backend draw queue (src/backend-glium/src/queue.rs),
  - the event model and event dispatcher (src/widgets/src/event.rs,
    src/widgets/src/event/dispatcher.rs),
  - the derived tree traversal (src/proc-macros/src/visitable.rs).

Machine integers are modelled as Nat / Int, with an explicit mod 2^32 where
the source casts a length to u32.  Floating point pointer coordinates (f64)
are modelled by an inductive that separates finite values (as rationals)
from nan and the infinities; the only operation the code performs on them
is the checked cast to i32, which is exact on this model.

The Rect type itself (core/src/geometry/rect.rs) is not present under src/,
only its callers are; its operations are modelled from the spec and marked
as such in their doc comments.
-/

namespace Widgets

/-- Position in 2D cartesian coordinates, from src/core/src/geometry/point.rs.
The Rust type is generic over the scalar; the instances used by the claims
are Point Int (i32 positions), Point F64 (f64 pointer coordinates) and
Point Rat (f32 vertex coordinates). -/
structure Point (T : Type) where
  x : T
  y : T
deriving DecidableEq, Repr

/-- Unsigned 2D extent (w, h : u32), modelled with Nat components. -/
structure Size where
  w : Nat
  h : Nat
deriving DecidableEq, Repr

/-- Widget position type (Point of i32). -/
abbrev Position := Point Int

/-- Rectangle = position + size.  The defining file core/src/geometry/rect.rs
is not under src/; the structure shape is fixed by its users
(rect.pos, rect.size, Rect { pos, size }). -/
structure Rect where
  pos : Position
  size : Size
deriving DecidableEq, Repr

/-- Modelled from the spec: left edge accessor rect.x() of the missing
core/src/geometry/rect.rs. -/
def Rect.x (r : Rect) : Int := r.pos.x

/-- Modelled from the spec: top edge accessor rect.y() of the missing
core/src/geometry/rect.rs. -/
def Rect.y (r : Rect) : Int := r.pos.y

/-- Modelled from the spec: right edge accessor rect.end_x() of the missing
core/src/geometry/rect.rs, as position plus width.  This convention
reproduces the spec example clip_inside((0,0,100,100), (50,50,100,100)) =
(50,50,50,50). -/
def Rect.end_x (r : Rect) : Int := r.pos.x + r.size.w

/-- Modelled from the spec: bottom edge accessor rect.end_y() of the missing
core/src/geometry/rect.rs, as position plus height. -/
def Rect.end_y (r : Rect) : Int := r.pos.y + r.size.h

/-- Modelled from the spec: rect.offset(p) of the missing rect.rs translates
the rectangle by a point (used as child.get_bounds().offset(vp.pos) in the
event dispatcher). -/
def Rect.offset (r : Rect) (d : Position) : Rect :=
  ⟨⟨r.pos.x + d.x, r.pos.y + d.y⟩, r.size⟩

/-- Modelled from the spec: clip_inside(a, b) of the missing rect.rs returns
the intersection rectangle of a and b, or no result if the intersection has
zero or negative extent on either axis. -/
def Rect.clip_inside (a b : Rect) : Option Rect :=
  let x0 := max a.x b.x
  let y0 := max a.y b.y
  let x1 := min a.end_x b.end_x
  let y1 := min a.end_y b.end_y
  if x0 < x1 ∧ y0 < y1 then
    some ⟨⟨x0, y0⟩, ⟨(x1 - x0).toNat, (y1 - y0).toNat⟩⟩
  else
    none

/-- Modelled from the spec: rectangle containment, used to state that the
clipped rectangle is contained in both inputs (spec section 8).  This is a
spec-side definition, not a source function. -/
def Rect.containedIn (inner outer : Rect) : Bool :=
  decide (outer.x ≤ inner.x ∧ inner.end_x ≤ outer.end_x ∧
          outer.y ≤ inner.y ∧ inner.end_y ≤ outer.end_y)

/-- Model of an f64 value as consumed by the checked cast in Point::inside:
finite values are kept as exact rationals, nan and the two infinities are
separate constructors.  No arithmetic is performed on these values by the
embedded code, only classification, comparison and truncation, which are
exact on this model. -/
inductive F64 where
  | finite (q : ℚ)
  | nan
  | posInf
  | negInf
deriving DecidableEq, Repr

/-- Truncation toward zero of a rational, as the Rust float-to-int cast does. -/
def truncQ (q : ℚ) : Int := if 0 ≤ q then ⌊q⌋ else ⌈q⌉

/-- Checked cast f64 to i32 with the semantics of num_traits ToPrimitive
(used by Point::cast_checked): the result is the truncation toward zero,
defined exactly when i32::MIN - 1 < x < i32::MAX + 1; nan and the
infinities yield none. -/
def F64.toI32 : F64 → Option Int
  | .finite q => if -(2 ^ 31 : ℚ) - 1 < q ∧ q < 2 ^ 31 then some (truncQ q) else none
  | _ => none

/-- Point::cast_checked::<i32> from src/core/src/geometry/point.rs at the f64
instance: casts each component, failing if either cast fails. -/
def Point.cast_checked (p : Point F64) : Option (Point Int) :=
  match p.x.toI32, p.y.toI32 with
  | some x, some y => some ⟨x, y⟩
  | _, _ => none

/-- Point::inside from src/core/src/geometry/point.rs (lines 43-52): the
point is inside the rectangle iff the checked cast to i32 succeeds and the
cast point is within the inclusive bounds rect.x() ..= rect.end_x(),
rect.y() ..= rect.end_y(). -/
def Point.inside (p : Point F64) (rect : Rect) : Bool :=
  match p.cast_checked with
  | some q =>
      decide (rect.x ≤ q.x) && decide (q.x ≤ rect.end_x) &&
      decide (rect.y ≤ q.y) && decide (q.y ≤ rect.end_y)
  | none => false

/-- Color with four components, from src/core/src/draw/color.rs (r, g, b, a
: f32).  The queue only stores and compares colors, so the components are
kept as exact rationals. -/
structure Color where
  r : ℚ
  g : ℚ
  b : ℚ
  a : ℚ
deriving DecidableEq, Repr

/-- Modelled from the spec: Vertex (position, color, texture coordinate);
the defining file of the widgets Vertex type is not under src/.  The queue
never inspects a vertex beyond translating its position, so the f32
components are kept as exact rationals. -/
structure Vertex where
  pos : Point ℚ
  color : Color
  texc : Point ℚ
deriving DecidableEq, Repr

/-- Modelled from the spec: Vertex::translate adds an offset to the vertex
position (used by push_prim to make geometry window-relative). -/
def Vertex.translate (v : Vertex) (offset : Point ℚ) : Vertex :=
  ⟨⟨v.pos.x + offset.x, v.pos.y + offset.y⟩, v.color, v.texc⟩

/-- Image from src/widgets/src/draw/image.rs.  Its PartialEq compares only
the id field, so the model keeps just the identity; pixel data, size and
format never influence a queue operation. -/
structure Image where
  id : Nat
deriving DecidableEq, Repr

/-- Types of drawing primitives, from src/widgets/src/draw/queue.rs. -/
inductive Primitive where
  | Points
  | Lines
  | LineStrip
  | Triangles
  | TriangleStrip
  | TriangleFan
deriving DecidableEq, Repr

/-- DrawCmdPrim from src/widgets/src/draw/queue.rs: a batched primitive
draw command referencing a range of the shared index buffer. -/
structure DrawCmdPrim where
  primitive : Primitive
  idx_offset : Nat
  idx_len : Nat
  texture : Option Image
  viewport : Rect
deriving DecidableEq, Repr

/-- A single draw command, from src/widgets/src/draw/queue.rs. -/
inductive DrawCommand where
  | Clear (color : Color)
  | Draw (cmd : DrawCmdPrim)
deriving DecidableEq, Repr

/-- DrawError from src/widgets/src/draw/queue.rs.  Both payloads are u32 in
the source; they are modelled as Nat values below 2^32. -/
inductive DrawError where
  | IndexOutOfBounds (idx : Nat) (nvert : Nat)
deriving DecidableEq, Repr

/-- The u32 modulus, for the `as u32` casts of the source. -/
def U32MOD : Nat := 2 ^ 32

/-- Buffer with draw commands to be sent to the backend, from
src/widgets/src/draw/queue.rs.  Index entries are u32 values, modelled as
Nat below 2^32. -/
structure DrawQueue where
  vertices : List Vertex
  indices : List Nat
  commands : List DrawCommand
deriving DecidableEq, Repr

/-- DrawQueue::new from src/widgets/src/draw/queue.rs (Default). -/
def DrawQueue.new : DrawQueue := ⟨[], [], []⟩

/-- DrawQueue::clear from src/widgets/src/draw/queue.rs (lines 62-66):
clears the vertex buffer, the index buffer and the command list. -/
def DrawQueue.clear (_q : DrawQueue) : DrawQueue := ⟨[], [], []⟩

/-- DrawQueue::get_last_cmd_if_compatible from src/widgets/src/draw/queue.rs
(lines 69-78): checks whether the last draw command is a primitive command
with the same primitive kind, texture and viewport as the incoming push.
The source returns a mutable reference to that command; the pure model
returns the test, and push_prim below rebuilds the updated last command. -/
def DrawQueue.get_last_cmd_if_compatible (q : DrawQueue) (primitive : Primitive)
    (viewport : Rect) (texture : Option Image) : Bool :=
  match q.commands.getLast? with
  | some (.Draw cmd) =>
      decide (cmd.primitive = primitive ∧ cmd.texture = texture ∧ cmd.viewport = viewport)
  | _ => false

/-- DrawQueue::push_clear from src/widgets/src/draw/queue.rs. -/
def DrawQueue.push_clear (q : DrawQueue) (color : Color) : DrawQueue :=
  ⟨q.vertices, q.indices, q.commands ++ [.Clear color]⟩

/-- DrawQueue::push_prim from src/widgets/src/draw/queue.rs (lines 87-120).
The Rust function mutates self and returns Result<(), DrawError>; the model
returns the new queue together with the optional error, so that the early
error returns visibly leave the queue untouched.  nvert and base_vert model
the `as u32` casts with an explicit mod 2^32; index addition wraps the same
way.  The viewport offset cast i32 to f32 of the source cannot fail
(unwrap_or_default is never taken), so it is the plain inclusion of the
integers in the rationals. -/
def DrawQueue.push_prim (q : DrawQueue) (primitive : Primitive) (vertices : List Vertex)
    (indices : List Nat) (texture : Option Image) (viewport : Rect) :
    DrawQueue × Option DrawError :=
  let nvert := vertices.length % U32MOD
  if nvert = 0 then
    (q, none)
  else
    match indices.find? (fun i => decide (nvert ≤ i)) with
    | some idx => (q, some (.IndexOutOfBounds idx nvert))
    | none =>
      let base_vert := q.vertices.length % U32MOD
      let offset : Point ℚ := ⟨(viewport.pos.x : ℚ), (viewport.pos.y : ℚ)⟩
      let vertices' := q.vertices ++ vertices.map (fun v => v.translate offset)
      let commands' :=
        if q.get_last_cmd_if_compatible primitive viewport texture then
          match q.commands.getLast? with
          | some (.Draw cmd) =>
              q.commands.dropLast ++
                [.Draw ⟨cmd.primitive, cmd.idx_offset, cmd.idx_len + indices.length,
                        cmd.texture, cmd.viewport⟩]
          | _ => q.commands
        else
          q.commands ++ [.Draw ⟨primitive, q.indices.length, indices.length, texture, viewport⟩]
      let indices' := q.indices ++ indices.map (fun i => (i + base_vert) % U32MOD)
      (⟨vertices', indices', commands'⟩, none)

/-- Draw command detail of the glium backend, from
src/backend-glium/src/queue.rs: an index range into the shared buffer, a
texture (compared by GL object id, modelled as the id), and a viewport. -/
structure GlDrawCmdData where
  idx_start : Nat
  idx_stop : Nat
  texture : Option Nat
  viewport : Rect
deriving DecidableEq, Repr

/-- A single draw command of the glium backend, from
src/backend-glium/src/queue.rs. -/
inductive GlDrawCommand where
  | Clear (color : Color) (viewport : Rect)
  | Triangles (cmd : GlDrawCmdData)
deriving DecidableEq, Repr

/-- The glium backend draw queue, from src/backend-glium/src/queue.rs
(the GPU handles it also holds do not affect the buffer operations). -/
structure GlDrawQueue where
  vertices : List Vertex
  indices : List Nat
  commands : List GlDrawCommand
deriving DecidableEq, Repr

/-- DrawQueue::clear of the glium backend, from src/backend-glium/src/queue.rs
(lines 64-70): the source clears only the vertex buffer and the command
list; the index buffer is left untouched. -/
def GlDrawQueue.clear (q : GlDrawQueue) : GlDrawQueue :=
  ⟨[], q.indices, []⟩

/-- State of keys or mouse buttons, from src/widgets/src/event.rs. -/
inductive EvState where
  | Released
  | Pressed
deriving DecidableEq, Repr

/-- Mouse buttons, from src/widgets/src/event.rs. -/
inductive MouseButton where
  | Left
  | Middle
  | Right
  | Other (n : Nat)
deriving DecidableEq, Repr

/-- Symbolic key definition, from src/widgets/src/event.rs, abridged: the
remaining keycap constructors are omitted because no embedded operation
inspects the key payload; the dispatcher matches only on the event kind. -/
inductive Key where
  | Num (n : Nat) (numpad : Bool)
  | Letter (c : Char)
  | Fn (n : Nat)
  | Space
  | Escape
  | Enter (numpad : Bool)
  | Unk
deriving DecidableEq, Repr

/-- Axis of movement for the mouse pointer, from src/widgets/src/event.rs. -/
inductive AxisValue where
  | Position (p : Point F64)
  | Scroll (x y : ℚ)
  | Pressure (v : F64)
  | Tilt (x y : F64)
deriving DecidableEq, Repr

/-- Keyboard modifier state, from src/widgets/src/event.rs. -/
structure ModState where
  shift : Bool
  ctrl : Bool
  alt : Bool
  meta : Bool
deriving DecidableEq, Repr

/-- Mouse button state bitmask (u64), from src/widgets/src/event.rs. -/
structure ButtonState where
  mask : Nat
deriving DecidableEq, Repr

/-- Event input data, from src/widgets/src/event.rs. -/
inductive EvData where
  | Keyboard (state : EvState) (key : Key) (scancode : Nat)
  | Character (c : Char)
  | MouseMoved (axis : AxisValue)
  | MouseButton (state : EvState) (button : MouseButton)
  | PointerInside (inside : Bool)
  | FileDropped (path : String)
  | Resized (size : Size)
  | Moved (pos : Position)
  | Focused (f : Bool)
  | CloseRequest
  | Created
  | Destroyed
deriving DecidableEq, Repr

/-- Input event from the backend, from src/widgets/src/event.rs.  The
timestamp field is an opaque Instant in the source; it is carried as a Nat
and never inspected. -/
structure Event where
  timestamp : Nat
  pointer_pos : Point F64
  abs_pos : Point F64
  button_state : ButtonState
  mod_state : ModState
  data : EvData
deriving DecidableEq, Repr

/-- Event::with_data from src/widgets/src/event.rs: a new event with the
same context and the given data. -/
def Event.with_data (e : Event) (d : EvData) : Event :=
  ⟨e.timestamp, e.pointer_pos, e.abs_pos, e.button_state, e.mod_state, d⟩

/-- Result returned by a widget event handler, as used by the dispatcher in
src/widgets/src/event/dispatcher.rs. -/
inductive EventResult where
  | Pass
  | Consumed
deriving DecidableEq, Repr

/- Widget tree node: identity (get_id), bounds (get_bounds), event handler
(handle_event, modelled as a pure function since the claims only concern
whether and with what event it is invoked and what it returns) and an
ordered collection of children.  WForest is the list of children; the
mutual shape keeps structural recursion and induction straightforward. -/
mutual
inductive WTree where
  | node (id : Nat) (bounds : Rect) (handler : Event → EventResult) (children : WForest)
inductive WForest where
  | nil
  | cons (t : WTree) (ts : WForest)
end

/-- The id of a tree node (ObjectId::get_id). -/
def WTree.id : WTree → Nat
  | .node i _ _ _ => i

/-- The bounds of a tree node (Bounds::get_bounds). -/
def WTree.bounds : WTree → Rect
  | .node _ b _ _ => b

/-- The event handler of a tree node (Widget::handle_event). -/
def WTree.handler : WTree → Event → EventResult
  | .node _ _ h _ => h

/-- The children of a tree node. -/
def WTree.children : WTree → WForest
  | .node _ _ _ cs => cs

/-- EventDispatcher state, from src/widgets/src/event/dispatcher.rs: the
current event, the previously hovered widget id and the currently hovered
widget id. -/
structure EventDispatcher where
  event : Event
  last_inside : Option Nat
  inside : Option Nat
deriving Repr

/-- EventDispatcher::dispatch from src/widgets/src/event/dispatcher.rs
(lines 14-77): per event kind, either deliver the event to the widget
handler (keyboard and character unconditionally; position-carrying pointer
events and file drops only when the absolute pointer position is inside the
given absolute bounds) or yield Pass.  The source mutates self.inside on a
positional mouse move hit; the model returns the updated dispatcher state
next to the result. -/
def EventDispatcher.dispatch (d : EventDispatcher) (w : WTree) (abs_bounds : Rect) :
    EventDispatcher × EventResult :=
  let pos := d.event.abs_pos
  match d.event.data with
  | .Keyboard _ _ _ => (d, w.handler d.event)
  | .Character _ => (d, w.handler d.event)
  | .MouseMoved (.Position _) =>
      if pos.inside abs_bounds then
        let d' : EventDispatcher :=
          if d.inside.isNone then ⟨d.event, d.last_inside, some w.id⟩ else d
        (d', w.handler (d.event.with_data (.MouseMoved (.Position d.event.pointer_pos))))
      else
        (d, .Pass)
  | .MouseMoved _ =>
      if pos.inside abs_bounds then (d, w.handler d.event) else (d, .Pass)
  | .MouseButton _ _ =>
      if pos.inside abs_bounds then (d, w.handler d.event) else (d, .Pass)
  | .FileDropped _ =>
      if pos.inside abs_bounds then (d, w.handler d.event) else (d, .Pass)
  | _ => (d, .Pass)

/-- Visitor::visit of the EventDispatcher, from
src/widgets/src/event/dispatcher.rs (lines 80-94): with no context the
widget is skipped (Ok); otherwise dispatch runs against the context
viewport and a Consumed result becomes Err with the consuming widget id. -/
def EventDispatcher.visit (d : EventDispatcher) (w : WTree) (ctx : Option Rect) :
    EventDispatcher × Except Nat Unit :=
  match ctx with
  | none => (d, .ok ())
  | some vp =>
      match d.dispatch w vp with
      | (d', .Pass) => (d', .ok ())
      | (d', .Consumed) => (d', .error w.id)

/-- Visitor::new_context of the EventDispatcher, from
src/widgets/src/event/dispatcher.rs (lines 91-93): the child context is the
child bounds, offset by the parent viewport position, clipped inside the
parent viewport; none once fully clipped.  The source takes the dispatcher
by shared reference and ignores it. -/
def EventDispatcher.new_context (child : WTree) (parent_ctx : Option Rect) : Option Rect :=
  parent_ctx.bind (fun vp => (child.bounds.offset vp.pos).clip_inside vp)

/- Modelled from the spec: the Visitable::accept driver that matches the
Result-style Visitor of dispatcher.rs is not under src/ (only its trait
users are).  Spec sections 4.3 and 4.4: visit the node with its context,
stop the instant a visit yields the consuming id (the Err short-circuit),
otherwise visit the children in declaration order, each with a context
derived by new_context from the parent context. -/
mutual
def dispatchAccept : WTree → Option Rect → EventDispatcher →
    EventDispatcher × Except Nat Unit
  | .node i b h cs, ctx, d =>
      match EventDispatcher.visit d (.node i b h cs) ctx with
      | (d', .error j) => (d', .error j)
      | (d', .ok _) => dispatchAcceptF cs ctx d'

def dispatchAcceptF : WForest → Option Rect → EventDispatcher →
    EventDispatcher × Except Nat Unit
  | .nil, _, d => (d, .ok ())
  | .cons c cs, ctx, d =>
      match dispatchAccept c (EventDispatcher.new_context c ctx) d with
      | (d', .error j) => (d', .error j)
      | (d', .ok _) => dispatchAcceptF cs ctx d'
end

/-- Modelled from the spec: EventDispatcher::dispatch_event as called by
Window::push_event (src/core/src/toplevel/window.rs line 115): dispatch the
event over the tree starting from the window rectangle at the origin; the
public result is the consuming widget id, or none. -/
def dispatch_event (ev : Event) (win_size : Size) (root : WTree) : Option Nat :=
  match dispatchAccept root (some ⟨⟨0, 0⟩, win_size⟩) ⟨ev, none, none⟩ with
  | (_, .error i) => some i
  | (_, .ok _) => none

/-- Characterization helper: whether dispatch delivers the event to a widget
visited with viewport vp (mirrors the match arms of
EventDispatcher::dispatch). -/
def delivered (ev : Event) (vp : Rect) : Bool :=
  match ev.data with
  | .Keyboard _ _ _ => true
  | .Character _ => true
  | .MouseMoved (.Position _) => ev.abs_pos.inside vp
  | .MouseMoved _ => ev.abs_pos.inside vp
  | .MouseButton _ _ => ev.abs_pos.inside vp
  | .FileDropped _ => ev.abs_pos.inside vp
  | _ => false

/-- Characterization helper: the event actually passed to handle_event (a
positional mouse move is rewritten to carry the widget-relative pointer
position; every other kind is delivered unchanged). -/
def deliveredEvent (ev : Event) : Event :=
  match ev.data with
  | .MouseMoved (.Position _) => ev.with_data (.MouseMoved (.Position ev.pointer_pos))
  | _ => ev

/- Characterization helper: the full-traversal delivery log, with no early
exit: the ids of the widgets the event would be delivered to, in traversal
order, paired with their handler results. -/
mutual
def deliveries (ev : Event) : WTree → Option Rect → List (Nat × EventResult)
  | .node i _ h cs, ctx =>
      (match ctx with
       | none => []
       | some vp => if delivered ev vp then [(i, h (deliveredEvent ev))] else []) ++
      deliveriesF ev cs ctx

def deliveriesF (ev : Event) : WForest → Option Rect → List (Nat × EventResult)
  | .nil, _ => []
  | .cons c cs, ctx =>
      deliveries ev c (EventDispatcher.new_context c ctx) ++ deliveriesF ev cs ctx
end

/-- Generic visitor interface of the value-passing traversal generated by
visitable_impl (src/proc-macros/src/visitable.rs): an early-exit predicate,
a context derivation that may prune, and the two visit hooks.  The state
type and the context type are arbitrary. -/
structure GVisitor (σ γ : Type) where
  finished : σ → Bool
  new_context : σ → WTree → γ → Option γ
  visit_before : σ → WTree → γ → σ
  visit_after : σ → WTree → γ → σ

/- Visitable::accept as generated by visitable_impl
(src/proc-macros/src/visitable.rs lines 21-64) for a struct with visited
children: return at once when the visitor is finished; derive the node
context, pruning the whole subtree when it is none; otherwise visit_before,
visit each child in declaration order with an early-exit check after every
child (the early return skips visit_after), then visit_after.  gacceptF
returns Sum.inl on early exit and Sum.inr when the child list completed. -/
mutual
def gaccept (V : GVisitor σ γ) : WTree → σ → γ → σ
  | .node i b h cs, vis, prev_ctx =>
      if V.finished vis then vis
      else
        match V.new_context vis (.node i b h cs) prev_ctx with
        | some ctx =>
            let vis1 := V.visit_before vis (.node i b h cs) ctx
            match gacceptF V cs vis1 ctx with
            | .inl vEarly => vEarly
            | .inr vDone => V.visit_after vDone (.node i b h cs) ctx
        | none => vis

def gacceptF (V : GVisitor σ γ) : WForest → σ → γ → σ ⊕ σ
  | .nil, vis, _ => .inr vis
  | .cons c cs, vis, ctx =>
      let vis' := gaccept V c vis ctx
      if V.finished vis' then .inl vis'
      else gacceptF V cs vis' ctx
end

/-- Sample vertex used by concrete evaluations. -/
def v0 : Vertex := ⟨⟨0, 0⟩, ⟨0, 0, 0, 1⟩, ⟨0, 0⟩⟩

/-- Sample viewport rectangle used by concrete evaluations. -/
def rect0 : Rect := ⟨⟨0, 0⟩, ⟨100, 100⟩⟩

/-- Sample inner rectangle used by concrete evaluations. -/
def rect_in : Rect := ⟨⟨10, 10⟩, ⟨20, 20⟩⟩

/-- Sample modifier state. -/
def sampleModState : ModState := ⟨false, false, false, false⟩

/-- Sample pointer position far outside rect0 and rect_in. -/
def pFar : Point F64 := ⟨.finite 500, .finite 500⟩

/-- Sample keyboard event whose pointer position is far outside rect_in. -/
def ev_kb : Event := ⟨0, pFar, pFar, ⟨0⟩, sampleModState, .Keyboard .Pressed .Space 13⟩

/-- Sample positional mouse-move event far outside rect_in. -/
def ev_mm : Event := ⟨0, pFar, pFar, ⟨0⟩, sampleModState, .MouseMoved (.Position pFar)⟩

/-- Sample leaf widget with inner bounds and a consuming handler. -/
def w0 : WTree := .node 3 rect_in (fun _ => .Consumed) .nil

/-- Sample leaf widget covering rect0 with a consuming handler. -/
def c0 : WTree := .node 7 rect0 (fun _ => .Consumed) .nil

/-- Sample dispatcher holding the keyboard event. -/
def d_kb : EventDispatcher := ⟨ev_kb, none, none⟩

/-- Sample dispatcher holding the positional mouse-move event. -/
def d_mm : EventDispatcher := ⟨ev_mm, none, none⟩

/-- Sample concrete visitor over Nat state: finishes once the counter is
positive, visit_before increments it. -/
def cVis : GVisitor Nat Unit :=
  ⟨fun n => decide (0 < n), fun _ _ _ => some (), fun n _ _ => n + 1, fun n _ _ => n⟩

/-- Sample childless tree node for the visitor witness. -/
def t1 : WTree := .node 1 rect0 (fun _ => .Pass) .nil

/-- C7: pushing an empty vertex slice is a successful no-op for every index
slice, texture and viewport: the zero-vertex early return precedes index
validation, so the queue is returned unchanged and no error is reported. -/
theorem push_prim_zero_vertices (q : DrawQueue) (primitive : Primitive)
    (indices : List Nat) (texture : Option Image) (viewport : Rect) :
    q.push_prim primitive [] indices texture viewport = (q, none) := rfl

/-- C1 counterexample: with an empty vertex slice and index list [0], the
supplied index 0 is greater than or equal to the number of supplied
vertices (0), yet push_prim succeeds instead of failing with
IndexOutOfBounds, because the zero-vertex early return precedes index
validation.  This refutes the claim as universally stated. -/
theorem push_prim_oob_counterexample :
    DrawQueue.new.push_prim .Triangles [] [0] none rect0 = (DrawQueue.new, none) := rfl

/-- C1 amended: for every call with a non-empty vertex slice where some
supplied u32 index is at least the number of supplied vertices, push_prim
fails with the IndexOutOfBounds error (carrying the first offending index
and the vertex count) and is rejected atomically: the returned queue is
exactly the input queue, so no partial vertices, indices or commands are
appended. -/
theorem push_prim_oob (q : DrawQueue) (primitive : Primitive) (vertices : List Vertex)
    (indices : List Nat) (texture : Option Image) (viewport : Rect)
    (hne : vertices ≠ [])
    (hu32 : ∀ i ∈ indices, i < U32MOD)
    (hoob : ∃ i ∈ indices, vertices.length ≤ i) :
    ∃ idx ∈ indices, vertices.length ≤ idx ∧
      q.push_prim primitive vertices indices texture viewport =
        (q, some (.IndexOutOfBounds idx vertices.length)) := by
  obtain ⟨i, hi_mem, hi_ge⟩ := hoob
  have hlen : vertices.length < U32MOD := lt_of_le_of_lt hi_ge (hu32 i hi_mem)
  have hmod : vertices.length % U32MOD = vertices.length := Nat.mod_eq_of_lt hlen
  have hnz : vertices.length ≠ 0 := by
    intro h0
    exact hne (List.length_eq_zero.mp h0)
  cases hfind : indices.find? (fun j => decide (vertices.length ≤ j)) with
  | none =>
      exfalso
      have := List.find?_eq_none.mp hfind i hi_mem
      simp [hi_ge] at this
  | some idx =>
      have hidx_mem : idx ∈ indices := List.mem_of_find?_eq_some hfind
      have hidx_ge : vertices.length ≤ idx := by
        have hp := List.find?_some hfind
        simpa using hp
      refine ⟨idx, hidx_mem, hidx_ge, ?_⟩
      simp only [DrawQueue.push_prim, hmod]
      rw [if_neg hnz, hfind]

/-- Witness for the amended C1 theorem at a concrete input: one vertex,
index list [1]. -/
theorem push_prim_oob_witness :
    ∃ idx ∈ ([1] : List Nat), 1 ≤ idx ∧
      DrawQueue.new.push_prim .Triangles [v0] [1] none rect0 =
        (DrawQueue.new, some (.IndexOutOfBounds idx 1)) :=
  push_prim_oob DrawQueue.new .Triangles [v0] [1] none rect0
    (by simp) (by decide) ⟨1, by simp, by decide⟩

/-- Helper: the state produced by a successful push_prim with a nonzero
32-bit vertex count, read off from the success branch of the source. -/
theorem push_prim_success_state (q : DrawQueue) (primitive : Primitive)
    (vertices : List Vertex) (indices : List Nat) (texture : Option Image) (viewport : Rect)
    (hnv : vertices.length % U32MOD ≠ 0)
    (hok : (q.push_prim primitive vertices indices texture viewport).2 = none) :
    q.push_prim primitive vertices indices texture viewport =
      (⟨q.vertices ++
          vertices.map (fun v => v.translate ⟨(viewport.pos.x : ℚ), (viewport.pos.y : ℚ)⟩),
        q.indices ++ indices.map (fun i => (i + q.vertices.length % U32MOD) % U32MOD),
        if q.get_last_cmd_if_compatible primitive viewport texture then
          match q.commands.getLast? with
          | some (.Draw cmd) =>
              q.commands.dropLast ++
                [.Draw ⟨cmd.primitive, cmd.idx_offset, cmd.idx_len + indices.length,
                        cmd.texture, cmd.viewport⟩]
          | _ => q.commands
        else
          q.commands ++
            [.Draw ⟨primitive, q.indices.length, indices.length, texture, viewport⟩]⟩,
       none) := by
  cases hfind : indices.find? (fun i => decide (vertices.length % U32MOD ≤ i)) with
  | some idx =>
      exfalso
      simp only [DrawQueue.push_prim] at hok
      rw [if_neg hnv, hfind] at hok
      simp at hok
  | none =>
      simp only [DrawQueue.push_prim]
      rw [if_neg hnv, hfind]

/-- C2 counterexample: from an empty queue, push one vertex with one index,
then a second push with the same primitive kind, texture and viewport but
zero vertices and two indices.  Both pushes succeed (the second is the
zero-vertex no-op), exactly one command exists, yet its index-range length
is 1, not the sum 1 + 2 = 3 of the two pushes index counts.  This refutes
the claim as universally stated over all successful triangle pushes. -/
theorem push_coalesce_counterexample :
    (DrawQueue.new.push_prim .Triangles [v0] [0] none rect0).2 = none ∧
    ((DrawQueue.new.push_prim .Triangles [v0] [0] none rect0).1.push_prim
        .Triangles [] [0, 0] none rect0).2 = none ∧
    ((DrawQueue.new.push_prim .Triangles [v0] [0] none rect0).1.push_prim
        .Triangles [] [0, 0] none rect0).1.commands =
      [.Draw ⟨.Triangles, 0, 1, none, rect0⟩] :=
  ⟨rfl, rfl, rfl⟩

/-- C2 amended: for two consecutive successful triangle pushes that each
supply a nonzero 32-bit vertex count, with identical primitive kind,
texture and viewport, where the first push begins a new command (the
previous last command does not share that state, which is what one command
covering exactly both pushes presupposes): the second push appends no new
command, exactly one command was added across both pushes, and its
index-range length is the sum of the two pushes index counts; a second
push differing in texture or viewport instead appends a new, separate
command. -/
theorem push_coalesce (q : DrawQueue) (vs1 vs2 : List Vertex) (is1 is2 : List Nat)
    (tex : Option Image) (vp : Rect)
    (h1 : vs1.length % U32MOD ≠ 0) (h2 : vs2.length % U32MOD ≠ 0)
    (hfresh : q.get_last_cmd_if_compatible .Triangles vp tex = false)
    (hok1 : (q.push_prim .Triangles vs1 is1 tex vp).2 = none)
    (hok2 : ((q.push_prim .Triangles vs1 is1 tex vp).1.push_prim
        .Triangles vs2 is2 tex vp).2 = none) :
    ((q.push_prim .Triangles vs1 is1 tex vp).1.push_prim
        .Triangles vs2 is2 tex vp).1.commands.length
      = (q.push_prim .Triangles vs1 is1 tex vp).1.commands.length ∧
    (q.push_prim .Triangles vs1 is1 tex vp).1.commands.length = q.commands.length + 1 ∧
    ((q.push_prim .Triangles vs1 is1 tex vp).1.push_prim
        .Triangles vs2 is2 tex vp).1.commands.getLast?
      = some (.Draw ⟨.Triangles, q.indices.length, is1.length + is2.length, tex, vp⟩) ∧
    (∀ (vs3 : List Vertex) (is3 : List Nat) (tex2 : Option Image) (vp2 : Rect),
      (tex2 ≠ tex ∨ vp2 ≠ vp) → vs3.length % U32MOD ≠ 0 →
      ((q.push_prim .Triangles vs1 is1 tex vp).1.push_prim
          .Triangles vs3 is3 tex2 vp2).2 = none →
      ((q.push_prim .Triangles vs1 is1 tex vp).1.push_prim
          .Triangles vs3 is3 tex2 vp2).1.commands.length
        = (q.push_prim .Triangles vs1 is1 tex vp).1.commands.length + 1) := by
  have hs1 := push_prim_success_state q .Triangles vs1 is1 tex vp h1 hok1
  have hcmds1 : (q.push_prim .Triangles vs1 is1 tex vp).1.commands
      = q.commands ++ [.Draw ⟨.Triangles, q.indices.length, is1.length, tex, vp⟩] := by
    rw [hs1]
    simp [hfresh]
  have hlast1 : (q.push_prim .Triangles vs1 is1 tex vp).1.commands.getLast?
      = some (.Draw ⟨.Triangles, q.indices.length, is1.length, tex, vp⟩) := by
    rw [hcmds1]
    exact List.getLast?_concat _
  have hcompat : (q.push_prim .Triangles vs1 is1 tex vp).1.get_last_cmd_if_compatible
      .Triangles vp tex = true := by
    simp only [DrawQueue.get_last_cmd_if_compatible, hlast1]
    simp
  have hs2 := push_prim_success_state (q.push_prim .Triangles vs1 is1 tex vp).1
    .Triangles vs2 is2 tex vp h2 hok2
  have hcmds2 : ((q.push_prim .Triangles vs1 is1 tex vp).1.push_prim
      .Triangles vs2 is2 tex vp).1.commands
      = q.commands ++
        [.Draw ⟨.Triangles, q.indices.length, is1.length + is2.length, tex, vp⟩] := by
    rw [hs2]
    simp only [hcompat, if_true, hcmds1, List.dropLast_concat, List.getLast?_concat]
  refine ⟨?_, ?_, ?_, ?_⟩
  · rw [hcmds2, hcmds1]
    simp
  · rw [hcmds1]
    simp
  · rw [hcmds2]
    exact List.getLast?_concat _
  · intro vs3 is3 tex2 vp2 hdiff h3 hok3
    have hncompat : (q.push_prim .Triangles vs1 is1 tex vp).1.get_last_cmd_if_compatible
        .Triangles vp2 tex2 = false := by
      simp only [DrawQueue.get_last_cmd_if_compatible, hlast1]
      simp only [decide_eq_false_iff_not]
      rintro ⟨-, ht, hv⟩
      rcases hdiff with h | h
      · exact h ht.symm
      · exact h hv.symm
    have hs3 := push_prim_success_state (q.push_prim .Triangles vs1 is1 tex vp).1
      .Triangles vs3 is3 tex2 vp2 h3 hok3
    rw [hs3]
    simp [hncompat]

/-- Witness for the amended C2 theorem at a concrete input: two single-vertex
pushes with index counts 1 and 2 coalesce into one command of index-range
length 3. -/
theorem push_coalesce_witness :
    ((DrawQueue.new.push_prim .Triangles [v0] [0] none rect0).1.push_prim
        .Triangles [v0] [0, 0] none rect0).1.commands.getLast?
      = some (.Draw ⟨.Triangles, 0, 3, none, rect0⟩) :=
  (push_coalesce DrawQueue.new [v0] [v0] [0] [0, 0] none rect0
    (by decide) (by decide) rfl rfl rfl).2.2.1

/-- C3: the widgets DrawQueue::clear empties all three per-frame stores (and
this is the queue GliumWindow::draw clears at the start of each draw
cycle), but the glium backend DrawQueue::clear in
src/backend-glium/src/queue.rs, whose doc comment also promises to clear
all data, leaves the index buffer untouched: evaluated on a queue whose
index buffer is [0, 1, 2], the indices survive the clear. -/
theorem clear_empties_stores :
    (∀ q : DrawQueue, q.clear = ⟨[], [], []⟩) ∧
    GlDrawQueue.clear ⟨[v0], [0, 1, 2], []⟩ = ⟨[], [0, 1, 2], []⟩ :=
  ⟨fun _ => rfl, rfl⟩

/-- C9: clip_inside yields no result exactly when the axis-aligned
intersection has zero or negative extent on either axis; any produced
rectangle is contained in both inputs; and the spec example
clip_inside((0,0,100,100), (50,50,100,100)) = (50,50,50,50) holds. -/
theorem clip_inside_spec (a b : Rect) :
    (a.clip_inside b = none ↔
      min a.end_x b.end_x ≤ max a.x b.x ∨ min a.end_y b.end_y ≤ max a.y b.y) ∧
    (∀ c, a.clip_inside b = some c → c.containedIn a = true ∧ c.containedIn b = true) ∧
    Rect.clip_inside ⟨⟨0, 0⟩, ⟨100, 100⟩⟩ ⟨⟨50, 50⟩, ⟨100, 100⟩⟩ =
      some ⟨⟨50, 50⟩, ⟨50, 50⟩⟩ := by
  refine ⟨?_, ?_, by decide⟩
  · simp only [Rect.clip_inside]
    by_cases h : max a.x b.x < min a.end_x b.end_x ∧ max a.y b.y < min a.end_y b.end_y
    · rw [if_pos h]
      constructor
      · intro hcon
        exact (Option.some_ne_none _ hcon).elim
      · intro hor
        rcases hor with hx | hy
        · exact absurd h.1 (not_lt.mpr hx)
        · exact absurd h.2 (not_lt.mpr hy)
    · rw [if_neg h]
      constructor
      · intro _
        rcases not_and_or.mp h with h1 | h1
        · exact Or.inl (not_lt.mp h1)
        · exact Or.inr (not_lt.mp h1)
      · intro _
        rfl
  · intro c hc
    simp only [Rect.clip_inside] at hc
    by_cases h : max a.x b.x < min a.end_x b.end_x ∧ max a.y b.y < min a.end_y b.end_y
    · rw [if_pos h] at hc
      obtain ⟨hx, hy⟩ := h
      simp only [Rect.x, Rect.y, Rect.end_x, Rect.end_y] at hx hy
      rcases Option.some.inj hc with rfl
      constructor <;>
      · simp only [Rect.containedIn, Rect.x, Rect.y, Rect.end_x, Rect.end_y,
          decide_eq_true_eq]
        omega
    · rw [if_neg h] at hc
      exact (Option.noConfusion hc)

/-- Witness for the C9 theorem at the spec example: the produced rectangle
(50,50,50,50) is contained in both inputs. -/
theorem clip_inside_spec_witness :
    Rect.containedIn ⟨⟨50, 50⟩, ⟨50, 50⟩⟩ ⟨⟨0, 0⟩, ⟨100, 100⟩⟩ = true ∧
    Rect.containedIn ⟨⟨50, 50⟩, ⟨50, 50⟩⟩ ⟨⟨50, 50⟩, ⟨100, 100⟩⟩ = true :=
  (clip_inside_spec ⟨⟨0, 0⟩, ⟨100, 100⟩⟩ ⟨⟨50, 50⟩, ⟨100, 100⟩⟩).2.1
    ⟨⟨50, 50⟩, ⟨50, 50⟩⟩ (by decide)

/-- C10: the hit-test predicate Point::inside returns true exactly when the
checked numeric cast of both coordinates to i32 succeeds and the cast point
lies within the inclusive bounds x() ..= end_x(), y() ..= end_y() (the far
right and bottom edges count as inside); a nan, infinite or out-of-range
coordinate makes the cast fail, so such a point is never inside. -/
theorem point_inside_spec :
    (∀ (p : Point F64) (rect : Rect),
      p.inside rect = true ↔
        ∃ q : Point Int, p.cast_checked = some q ∧
          rect.x ≤ q.x ∧ q.x ≤ rect.end_x ∧ rect.y ≤ q.y ∧ q.y ≤ rect.end_y) ∧
    (∀ (y : F64) (rect : Rect),
      Point.inside ⟨.nan, y⟩ rect = false ∧
      Point.inside ⟨.posInf, y⟩ rect = false ∧
      Point.inside ⟨.negInf, y⟩ rect = false ∧
      Point.inside ⟨.finite (2 ^ 31 : ℚ), y⟩ rect = false) := by
  constructor
  · intro p rect
    cases hc : p.cast_checked with
    | none => simp [Point.inside, hc]
    | some q =>
        simp only [Point.inside, hc, Bool.and_eq_true, decide_eq_true_eq]
        constructor
        · rintro ⟨⟨⟨h1, h2⟩, h3⟩, h4⟩
          exact ⟨q, rfl, h1, h2, h3, h4⟩
        · rintro ⟨q', hq', h1, h2, h3, h4⟩
          cases Option.some.inj hq'
          exact ⟨⟨⟨h1, h2⟩, h3⟩, h4⟩
  · intro y rect
    refine ⟨?_, ?_, ?_, ?_⟩ <;>
      simp [Point.inside, Point.cast_checked, F64.toI32]

/-- Helper: EventDispatcher::dispatch delivers the (possibly rewritten)
event to the widget handler exactly when the delivered predicate holds, and
never changes the stored event or the last_inside field. -/
theorem dispatch_spec (d : EventDispatcher) (w : WTree) (vp : Rect) :
    (d.dispatch w vp).2 =
      (if delivered d.event vp then w.handler (deliveredEvent d.event) else .Pass) ∧
    (d.dispatch w vp).1.event = d.event ∧
    (d.dispatch w vp).1.last_inside = d.last_inside := by
  cases hd : d.event.data with
  | Keyboard s k sc => simp [EventDispatcher.dispatch, delivered, deliveredEvent, hd]
  | Character c => simp [EventDispatcher.dispatch, delivered, deliveredEvent, hd]
  | MouseMoved ax =>
      cases ax with
      | Position p =>
          cases hin : d.event.abs_pos.inside vp
          · simp [EventDispatcher.dispatch, delivered, deliveredEvent, hd, hin]
          · simp [EventDispatcher.dispatch, delivered, deliveredEvent, hd, hin]
            constructor
            · split <;> rfl
            · split <;> rfl
      | Scroll sx sy =>
          simp only [EventDispatcher.dispatch, delivered, deliveredEvent, hd]
          by_cases hin : d.event.abs_pos.inside vp <;> simp [hin]
      | Pressure v =>
          simp only [EventDispatcher.dispatch, delivered, deliveredEvent, hd]
          by_cases hin : d.event.abs_pos.inside vp <;> simp [hin]
      | Tilt tx ty =>
          simp only [EventDispatcher.dispatch, delivered, deliveredEvent, hd]
          by_cases hin : d.event.abs_pos.inside vp <;> simp [hin]
  | MouseButton s b =>
      simp only [EventDispatcher.dispatch, delivered, deliveredEvent, hd]
      by_cases hin : d.event.abs_pos.inside vp <;> simp [hin]
  | FileDropped path =>
      simp only [EventDispatcher.dispatch, delivered, deliveredEvent, hd]
      by_cases hin : d.event.abs_pos.inside vp <;> simp [hin]
  | PointerInside q => simp [EventDispatcher.dispatch, delivered, deliveredEvent, hd]
  | Resized s => simp [EventDispatcher.dispatch, delivered, deliveredEvent, hd]
  | Moved p => simp [EventDispatcher.dispatch, delivered, deliveredEvent, hd]
  | Focused f => simp [EventDispatcher.dispatch, delivered, deliveredEvent, hd]
  | CloseRequest => simp [EventDispatcher.dispatch, delivered, deliveredEvent, hd]
  | Created => simp [EventDispatcher.dispatch, delivered, deliveredEvent, hd]
  | Destroyed => simp [EventDispatcher.dispatch, delivered, deliveredEvent, hd]

/-- Helper: the Visitor::visit of the dispatcher in terms of the delivery
predicate: skipped context yields Ok, a delivered Consumed yields Err with
the widget id, and the stored event is preserved. -/
theorem visit_spec (d : EventDispatcher) (w : WTree) (ctx : Option Rect) :
    (d.visit w ctx).2 =
      (match ctx with
       | none => Except.ok ()
       | some vp =>
          if delivered d.event vp then
            match w.handler (deliveredEvent d.event) with
            | .Pass => Except.ok ()
            | .Consumed => Except.error w.id
          else Except.ok ()) ∧
    (d.visit w ctx).1.event = d.event := by
  cases ctx with
  | none => exact ⟨rfl, rfl⟩
  | some vp =>
      obtain ⟨h2, h3, -⟩ := dispatch_spec d w vp
      rcases hdp : d.dispatch w vp with ⟨d', r⟩
      rw [hdp] at h2 h3
      simp only at h2 h3
      have hgoal2 : (d.visit w (some vp)).1.event = d.event := by
        simp only [EventDispatcher.visit, hdp]
        cases r <;> exact h3
      refine ⟨?_, hgoal2⟩
      show (d.visit w (some vp)).2 =
        (if delivered d.event vp then
          match w.handler (deliveredEvent d.event) with
          | .Pass => Except.ok ()
          | .Consumed => Except.error w.id
        else Except.ok ())
      cases r with
      | Pass =>
          simp only [EventDispatcher.visit, hdp]
          by_cases hdel : delivered d.event vp
          · rw [if_pos hdel]
            rw [if_pos hdel] at h2
            rw [← h2]
          · rw [if_neg hdel]
      | Consumed =>
          simp only [EventDispatcher.visit, hdp]
          by_cases hdel : delivered d.event vp
          · rw [if_pos hdel]
            rw [if_pos hdel] at h2
            rw [← h2]
          · rw [if_neg hdel] at h2
            exact absurd h2 (by simp)

mutual
/-- Helper, by mutual induction with the forest version: the outcome of the
dispatch traversal is the first Consumed entry of the full-order delivery
log, and the stored event survives the traversal. -/
theorem dispatchAccept_eq (ev : Event) (t : WTree) (ctx : Option Rect)
    (d : EventDispatcher) (hev : d.event = ev) :
    ((dispatchAccept t ctx d).2 =
      match (deliveries ev t ctx).find? (fun p => decide (p.2 = EventResult.Consumed)) with
      | some p => Except.error p.1
      | none => Except.ok ()) ∧
    (dispatchAccept t ctx d).1.event = ev := by
  cases t with
  | node i b h cs =>
      obtain ⟨hv2, hv3⟩ := visit_spec d (.node i b h cs) ctx
      rw [hev] at hv2
      rcases hvis : d.visit (.node i b h cs) ctx with ⟨d', r⟩
      rw [hvis] at hv2 hv3
      simp only at hv2 hv3
      have hd' : d'.event = ev := hv3.trans hev
      cases ctx with
      | none =>
          have hr : r = Except.ok () := hv2
          rw [hr] at hvis
          have hforest := dispatchAcceptF_eq ev cs none d' hd'
          simp only [dispatchAccept, hvis, deliveries, List.nil_append]
          exact hforest
      | some vp =>
          have hv2' : r =
              (if delivered ev vp then
                match h (deliveredEvent ev) with
                | EventResult.Pass => Except.ok ()
                | EventResult.Consumed => Except.error i
              else Except.ok ()) := hv2
          by_cases hdel : delivered ev vp
          · cases hh : h (deliveredEvent ev) with
            | Pass =>
                have hr : r = Except.ok () := by rw [hv2', if_pos hdel, hh]
                rw [hr] at hvis
                have hforest := dispatchAcceptF_eq ev cs (some vp) d' hd'
                simp only [dispatchAccept, hvis, deliveries, WTree.handler, hh, hdel,
                  if_true, List.cons_append, List.nil_append]
                rw [List.find?_cons_of_neg _ (by simp)]
                exact hforest
            | Consumed =>
                have hr : r = Except.error i := by rw [hv2', if_pos hdel, hh]
                rw [hr] at hvis
                simp only [dispatchAccept, hvis, deliveries, WTree.handler, hh, hdel,
                  if_true, List.cons_append, List.nil_append]
                rw [List.find?_cons_of_pos _ (by simp)]
                exact ⟨rfl, hd'⟩
          · have hr : r = Except.ok () := by rw [hv2', if_neg hdel]
            rw [hr] at hvis
            have hforest := dispatchAcceptF_eq ev cs (some vp) d' hd'
            simp only [dispatchAccept, hvis, deliveries, hdel, List.nil_append,
              Bool.false_eq_true, if_false]
            exact hforest

/-- Helper, forest side of the mutual induction for dispatchAccept_eq. -/
theorem dispatchAcceptF_eq (ev : Event) (cs : WForest) (ctx : Option Rect)
    (d : EventDispatcher) (hev : d.event = ev) :
    ((dispatchAcceptF cs ctx d).2 =
      match (deliveriesF ev cs ctx).find? (fun p => decide (p.2 = EventResult.Consumed)) with
      | some p => Except.error p.1
      | none => Except.ok ()) ∧
    (dispatchAcceptF cs ctx d).1.event = ev := by
  cases cs with
  | nil => simp [dispatchAcceptF, deliveriesF, hev]
  | cons c cs' =>
      obtain ⟨ha2, ha3⟩ := dispatchAccept_eq ev c (EventDispatcher.new_context c ctx) d hev
      rcases hacc : dispatchAccept c (EventDispatcher.new_context c ctx) d with ⟨d', r⟩
      rw [hacc] at ha2 ha3
      simp only at ha2 ha3
      cases hfind : (deliveries ev c (EventDispatcher.new_context c ctx)).find?
          (fun p => decide (p.2 = EventResult.Consumed)) with
      | some p =>
          rw [hfind] at ha2
          have hr : r = Except.error p.1 := ha2
          rw [hr] at hacc
          simp only [dispatchAcceptF, hacc, deliveriesF, List.find?_append, hfind]
          exact ⟨rfl, ha3⟩
      | none =>
          rw [hfind] at ha2
          have hr : r = Except.ok () := ha2
          rw [hr] at hacc
          have hrest := dispatchAcceptF_eq ev cs' ctx d' ha3
          simp only [dispatchAcceptF, hacc, deliveriesF, List.find?_append, hfind]
          exact hrest
end

/-- C4: the public result of an event dispatch over a widget tree is the id
of the first widget, in traversal order, whose handle_event returns
Consumed on the delivered event (none when no visited widget consumes),
and the moment a subtree dispatch yields the consuming id the traversal
returns it at once: the remaining siblings, quantified over arbitrary
forests with arbitrary handlers, are never visited, so no further
handle_event runs for that event. -/
theorem dispatch_event_first_consumer (ev : Event) (win_size : Size) (root : WTree) :
    dispatch_event ev win_size root =
      ((deliveries ev root (some ⟨⟨0, 0⟩, win_size⟩)).find?
          (fun p => decide (p.2 = EventResult.Consumed))).map Prod.fst ∧
    (∀ (c : WTree) (cs : WForest) (ctx : Option Rect) (d d' : EventDispatcher) (j : Nat),
      dispatchAccept c (EventDispatcher.new_context c ctx) d = (d', .error j) →
      dispatchAcceptF (.cons c cs) ctx d = (d', .error j)) := by
  constructor
  · have h := (dispatchAccept_eq ev root (some ⟨⟨0, 0⟩, win_size⟩) ⟨ev, none, none⟩ rfl).1
    unfold dispatch_event
    rcases hacc : dispatchAccept root (some ⟨⟨0, 0⟩, win_size⟩) ⟨ev, none, none⟩ with ⟨dx, r⟩
    rw [hacc] at h
    simp only at h
    cases hfind : (deliveries ev root (some ⟨⟨0, 0⟩, win_size⟩)).find?
        (fun p => decide (p.2 = EventResult.Consumed)) with
    | some p =>
        rw [hfind] at h
        have hr : r = Except.error p.1 := h
        rw [hr]
        simp
    | none =>
        rw [hfind] at h
        have hr : r = Except.ok () := h
        rw [hr]
        simp
  · intro c cs ctx d d' j hc
    simp only [dispatchAcceptF, hc]

/-- Witness for the C4 theorem stop clause at a concrete input: a single
consuming widget ends the sibling traversal with its id. -/
theorem dispatch_event_first_consumer_witness :
    dispatchAcceptF (.cons c0 .nil) (some rect0) d_kb = (d_kb, .error 7) :=
  (dispatch_event_first_consumer ev_kb ⟨100, 100⟩ c0).2 c0 .nil (some rect0) d_kb d_kb 7
    (by norm_num [dispatchAccept, dispatchAcceptF, EventDispatcher.visit,
      EventDispatcher.dispatch, EventDispatcher.new_context, c0, d_kb, ev_kb,
      WTree.handler, WTree.id, WTree.bounds, rect0, Rect.offset, Rect.clip_inside,
      Rect.x, Rect.y, Rect.end_x, Rect.end_y])

/-- C5: a position-carrying pointer event (mouse move with position, mouse
button) whose absolute position lies strictly outside the widget absolute
bounds is never passed to that widget handle_event: dispatch yields Pass
with the dispatcher state untouched for every possible handler, the visit
returns Ok, and the traversal proceeds to the following siblings exactly as
if the widget were absent. -/
theorem pointer_event_outside_pass (d : EventDispatcher) (w : WTree) (bounds : Rect)
    (hdata : (∃ p, d.event.data = .MouseMoved (.Position p)) ∨
             (∃ s b, d.event.data = .MouseButton s b))
    (hout : d.event.abs_pos.inside bounds = false) :
    d.dispatch w bounds = (d, .Pass) ∧
    d.visit w (some bounds) = (d, .ok ()) ∧
    (∀ (cs : WForest) (ctx : Option Rect),
      w.children = .nil →
      EventDispatcher.new_context w ctx = some bounds →
      dispatchAcceptF (.cons w cs) ctx d = dispatchAcceptF cs ctx d) := by
  have hdisp : d.dispatch w bounds = (d, .Pass) := by
    rcases hdata with ⟨p, hd⟩ | ⟨s, b, hd⟩ <;>
      simp [EventDispatcher.dispatch, hd, hout]
  have hvst : d.visit w (some bounds) = (d, .ok ()) := by
    simp only [EventDispatcher.visit, hdisp]
  refine ⟨hdisp, hvst, ?_⟩
  intro cs ctx hnil hctx
  have hacc : dispatchAccept w (some bounds) d = (d, Except.ok ()) := by
    cases w with
    | node i b hh cs' =>
        have hn : cs' = .nil := hnil
        subst hn
        simp only [dispatchAccept, hvst, dispatchAcceptF]
  simp only [dispatchAcceptF, hctx, hacc]

/-- Witness for the C5 theorem at a concrete input: a positional mouse move
at (500, 500) against bounds (10, 10, 20, 20). -/
theorem pointer_event_outside_pass_witness :
    d_mm.dispatch w0 rect_in = (d_mm, .Pass) ∧
    dispatchAcceptF (.cons w0 .nil) (some rect0) d_mm = dispatchAcceptF .nil (some rect0) d_mm := by
  have h := pointer_event_outside_pass d_mm w0 rect_in (Or.inl ⟨pFar, rfl⟩)
    (by norm_num [d_mm, ev_mm, pFar, Point.inside, Point.cast_checked, F64.toI32,
      truncQ, rect_in, Rect.x, Rect.y, Rect.end_x, Rect.end_y])
  exact ⟨h.1, h.2.2 .nil (some rect0) rfl (by decide)⟩

/-- C8: keyboard events and character events are delivered to the widget
handler unconditionally: dispatch invokes handle_event with the event as is
for every bounds rectangle and every pointer position, with no hit test. -/
theorem keyboard_broadcast (d : EventDispatcher) (w : WTree) (bounds : Rect)
    (hdata : (∃ s k sc, d.event.data = .Keyboard s k sc) ∨
             (∃ c, d.event.data = .Character c)) :
    d.dispatch w bounds = (d, w.handler d.event) := by
  rcases hdata with ⟨s, k, sc, hd⟩ | ⟨c, hd⟩ <;>
    simp [EventDispatcher.dispatch, hd]

/-- Witness for the C8 theorem at a concrete input: a keyboard event whose
pointer position (500, 500) is far outside the widget bounds is still
handed to the handler. -/
theorem keyboard_broadcast_witness :
    d_kb.dispatch w0 rect_in = (d_kb, w0.handler ev_kb) :=
  keyboard_broadcast d_kb w0 rect_in (Or.inl ⟨.Pressed, .Space, 13, rfl⟩)

/-- C6: once the visitor finished predicate holds, accept returns the
visitor unchanged for every node, so no descendant is entered, and a
sibling list stops immediately after the child that finished: the result
does not depend on the remaining siblings nor on the visitor hooks
new_context, visit_before and visit_after, which is exactly the statement
that none of them is invoked again (the theorem quantifies over all
visitors sharing the finished predicate value). -/
theorem visitor_finished_early_exit {σ γ : Type} (V : GVisitor σ γ) (t c : WTree)
    (cs : WForest) (vis : σ) (ctx : γ) (h : V.finished vis = true) :
    gaccept V t vis ctx = vis ∧ gacceptF V (.cons c cs) vis ctx = .inl vis := by
  have h1 : ∀ t' : WTree, gaccept V t' vis ctx = vis := by
    intro t'
    cases t' with
    | node i b hh cs' => simp [gaccept, h]
  refine ⟨h1 t, ?_⟩
  simp [gacceptF, h1 c, h]

/-- Witness for the C6 theorem at a concrete input: the counting visitor in
the finished state 1 passes through unchanged and stops a sibling list. -/
theorem visitor_finished_early_exit_witness :
    gaccept cVis t1 1 () = 1 ∧ gacceptF cVis (.cons t1 .nil) 1 () = .inl 1 :=
  visitor_finished_early_exit cVis t1 t1 .nil 1 () rfl

end Widgets
